import Mathlib

/-!
Shallow embedding of the `rolling` window library (package `rolling`):
the time-bucketed window of `time.go`, the reducers of `reduce.go`, the
percentile aggregator of `aggregate.go` and the P² streaming estimator
`FastPercentile`.

`float64` values are modelled as rationals; all inputs exercised by the
claims stay in ranges where binary floating point is exact or where the
reference tests compare with an epsilon, so the rational model is the
intended reading.  Two float behaviours are modelled explicitly because
claims depend on them: division by zero (`fdiv`, `none` = the non-finite
IEEE result, e.g. NaN for 0/0) and out-of-range slice indexing
(`getF`, `none` = the Go runtime panic).
-/

namespace Rolling

/-- Go float64 division `a / b`; `none` models the non-finite IEEE result
produced when the divisor is zero (NaN for `0/0`). -/
def fdiv (a b : ℚ) : Option ℚ := if b = 0 then none else some (a / b)

/-- Truncation toward zero, the rounding used by Go `math.Mod`. -/
def truncQ (x : ℚ) : Int := if x < 0 then Int.ceil x else Int.floor x

/-- Go `math.Mod(x, 1)`: `x` minus its truncation; the result keeps the
sign of `x`. -/
def gomod1 (x : ℚ) : ℚ := x - truncQ x

/-- Go slice indexing `s[i]` with an `int` index; `none` models the runtime
panic on an out-of-range (in particular negative) index. -/
def getF (l : List ℚ) (i : Int) : Option ℚ :=
  if 0 ≤ i then l.get? i.toNat else none

/-- Model of `sort.Float64s`: sorts the slice ascending (modelled by insertion
sort, which produces the same ascending ordering). -/
def sortFloat64s (l : List ℚ) : List ℚ := l.insertionSort (· ≤ ·)

/-! ### reduce.go -/

/-- Model of `Avg` (reduce.go): the iteration callback accumulates the running sum
and the count, and the quotient is returned.  An empty window divides
`0/0`, the NaN case of `fdiv`. -/
def Avg (samples : List ℚ) : Option ℚ :=
  fdiv (samples.foldl (· + ·) 0) (samples.length : ℚ)

/-- Model of `Percentile` (reduce.go): snapshot, sort ascending, rank
`position = len·(p/100) + 0.5 - 1`, exact hit returned when the
fractional part is zero, otherwise linear interpolation between `k` and
`k+1` (clamped to the last index). -/
def Percentile (p : ℚ) (samples : List ℚ) : Option ℚ :=
  let values := sortFloat64s samples
  let position : ℚ := (values.length : ℚ) * (p / 100) + 1/2 - 1
  let k : Int := Int.floor position
  let f : ℚ := gomod1 position
  if f = 0 then getF values k
  else
    let plusOne : Int := if k + 1 > (values.length : Int) - 1 then k else k + 1
    (getF values k).bind fun vk =>
      (getF values plusOne).map fun vp => (1 - f) * vk + f * vp

/-! ### aggregate.go -/

/-- Model of `percentileAggregator.Aggregate` (aggregate.go): guards the empty
(return 0) and single-sample (return it) windows, then sorts and
interpolates unconditionally between `k = ⌊(p/100)·len - 1⌋` and `k+1`
(clamped to the last index). -/
def percentileAggregate (percentile : ℚ) (samples : List ℚ) : Option ℚ :=
  if samples.length < 1 then some 0
  else if samples.length < 2 then getF samples 0
  else
    let values := sortFloat64s samples
    let n : ℚ := (percentile / 100) * (values.length : ℚ) - 1
    let k : Int := Int.floor n
    let plusOne : Int := if k + 1 > (values.length : Int) - 1 then k else k + 1
    let f : ℚ := gomod1 n
    (getF values k).bind fun vk =>
      (getF values plusOne).map fun vp => (1 - f) * vk + f * vp

/-! ### FastPercentile (P² estimator) -/

/-- The tail of one `bubbleSort` pass: `x` is the element currently in
hand; it swaps past each smaller successor. -/
def bubbleSwap (x : ℚ) : List ℚ → List ℚ
  | [] => [x]
  | y :: rest => if x > y then y :: bubbleSwap x rest else x :: bubbleSwap y rest

/-- One pass of Go `bubbleSort`: the inner loop swapping adjacent
out-of-order pairs, carrying the running maximum to the end. -/
def bubblePass : List ℚ → List ℚ
  | [] => []
  | x :: rest => bubbleSwap x rest

/-- Go `bubbleSort`: `len(s)` passes of adjacent swaps. -/
def bubbleSort (s : List ℚ) : List ℚ :=
  (List.range s.length).foldl (fun acc _ => bubblePass acc) s

/-- Go `sign`. -/
def sign (v : ℚ) : ℚ := if v < 0 then -1 else 1

/-- The local state of one `FastPercentile` run: the first five recorded
observations, the five marker heights `q`, integer ranks `n`, ideal rank
targets `nPrime` and their increments `dnPrime`, and the observation
counter. -/
structure PSquareState where
  initObs : List ℚ
  q : List ℚ
  n : List Int
  nPrime : List ℚ
  dnPrime : List ℚ
  observations : Nat
deriving DecidableEq

/-- The `observations == 6` block of `FastPercentile`: sort the five
primed values in place, copy them into `q[0..4]`, and set `n`, `nPrime`
and `dnPrime`.  (In every reachable state this runs with exactly five
recorded observations; the `getD` default is never read.) -/
def initMarkers (p : ℚ) (s : PSquareState) : PSquareState :=
  let sorted := bubbleSort s.initObs
  { s with
    initObs := sorted
    q := (List.range 5).map fun offset => sorted.getD offset 0
    n := [0, 1, 2, 3, 4]
    nPrime := [0, 2 * p, 4 * p, 2 + 2 * p, 4]
    dnPrime := [0, p / 2, p, (1 + p) / 2, 1] }

/-- The steady-state body of the `FastPercentile` callback: classify the
new value into a cell (extending `q[0]` down / `q[4]` up), bump the rank
counters above the cell, add the increments to `nPrime`, and relocate
each interior marker by the parabolic formula, falling back to linear
interpolation, when its ideal rank drifted a full unit with room to
move.  (Rational field division stands in for float division here; its
divisor-zero case is unreachable under the marker ordering maintained by
the guards, and no claim depends on this branch's numeric output.) -/
def updateMarkers (_p : ℚ) (s : PSquareState) (v : ℚ) : PSquareState :=
  let q0 := s.q
  -- Go switch: the first matching case fixes the target cell k.
  let qk : List ℚ × Nat :=
    if v < q0.getD 0 0 then (q0.set 0 v, 0)
    else if q0.getD 0 0 ≤ v ∧ v < q0.getD 1 0 then (q0, 0)
    else if q0.getD 1 0 ≤ v ∧ v < q0.getD 2 0 then (q0, 1)
    else if q0.getD 2 0 ≤ v ∧ v < q0.getD 3 0 then (q0, 2)
    else if q0.getD 3 0 ≤ v ∧ v ≤ q0.getD 4 0 then (q0, 3)
    else if v > q0.getD 4 0 then (q0.set 4 v, 3)
    else (q0, 0)
  let q1 := qk.1
  let k := qk.2
  -- for x := k+1; x < 5; x++ { n[x]++ }
  let n1 := s.n.mapIdx fun x nx => if k < x then nx + 1 else nx
  -- nPrime[i] = nPrime[i] + dnPrime[i]
  let nP1 := List.zipWith (· + ·) s.nPrime s.dnPrime
  -- for x := 1; x < 4; x++ { ... }
  let step := fun (st : List ℚ × List Int) (x : Nat) =>
    let q := st.1
    let n := st.2
    let d : ℚ := nP1.getD x 0 - ((n.getD x 0 : Int) : ℚ)
    if (1 ≤ d ∧ 1 < n.getD (x + 1) 0 - n.getD x 0) ∨
        (d ≤ -1 ∧ n.getD (x - 1) 0 - n.getD x 0 < -1) then
      let s' := sign d
      let si : Int := if d < 0 then -1 else 1
      let nx : ℚ := ((n.getD x 0 : Int) : ℚ)
      let nxPlusOne : ℚ := ((n.getD (x + 1) 0 : Int) : ℚ)
      let nxMinusOne : ℚ := ((n.getD (x - 1) 0 : Int) : ℚ)
      let qx := q.getD x 0
      let qxPlusOne := q.getD (x + 1) 0
      let qxMinusOne := q.getD (x - 1) 0
      let parab := qx + (s' / (nxPlusOne - nxMinusOne)) *
        ((nx - nxMinusOne + s') * (qxPlusOne - qx) / (nxPlusOne - nx) +
          (nxPlusOne - nx - s') * (qx - qxMinusOne) / (nx - nxMinusOne))
      let xsi : Nat := ((x : Int) + si).toNat
      let q2 :=
        if qxMinusOne < parab ∧ parab < qxPlusOne then q.set x parab
        else q.set x (qx + s' * ((q.getD xsi 0 - qx) / (((n.getD xsi 0 - n.getD x 0 : Int)) : ℚ)))
      (q2, n.set x (n.getD x 0 + si))
    else st
  let qn := [1, 2, 3].foldl step (q1, n1)
  { s with q := qn.1, n := qn.2, nPrime := nP1 }

/-- One execution of the `FastPercentile` iteration callback on value
`v`: increment the counter; observations 1–5 are only recorded;
observation 6 first initializes the markers from the primed values and
then, like every later observation, runs the marker update. -/
def psStep (p : ℚ) (s : PSquareState) (v : ℚ) : PSquareState :=
  let obs := s.observations + 1
  if obs < 6 then
    { s with observations := obs, initObs := s.initObs ++ [v] }
  else
    let s1 := { s with observations := obs }
    let s2 := if obs = 6 then initMarkers p s1 else s1
    updateMarkers p s2 v

/-- The zero-valued state at the start of a `FastPercentile` run. -/
def psInit : PSquareState :=
  ⟨[], [0, 0, 0, 0, 0], [0, 0, 0, 0, 0], [0, 0, 0, 0, 0], [0, 0, 0, 0, 0], 0⟩

/-- Model of `FastPercentile(p)` applied to a window replaying `samples` in
order: fold the callback, then degenerate to the sorted maximum when
fewer than five observations arrived (`none` models the runtime panic of
`initalObservations[len-1]` on an empty window), otherwise return
`q[2]`. -/
def FastPercentile (p : ℚ) (samples : List ℚ) : Option ℚ :=
  let frac := p / 100
  let s := samples.foldl (psStep frac) psInit
  if s.observations < 5 then (bubbleSort s.initObs).getLast?
  else some (s.q.getD 2 0)

/-! ### time.go (`TimeWindow`) -/

/-- The mutable state of a `TimeWindow` (time.go): the ring of buckets
(`window`, of length `numberOfBuckets`), and the last-touch markers.
The bucket duration only scales the external clock; the operations below
take the already-bucketed time index (`adjustedTime`) as input. -/
structure TimeWindow where
  numberOfBuckets : Nat
  window : List (List ℚ)
  lastWindowOffset : Nat
  lastWindowTime : Int
deriving DecidableEq

/-- Model of `NewTimeWindow`: note the `+1` sentinel — the ring holds one bucket
more than the configured count. -/
def NewTimeWindow (numberOfBuckets : Nat) : TimeWindow :=
  { numberOfBuckets := numberOfBuckets + 1
    window := List.replicate (numberOfBuckets + 1) []
    lastWindowOffset := 0
    lastWindowTime := 0 }

/-- Model of `resetWindow`: truncate every bucket to length zero. -/
def resetWindow (w : TimeWindow) : TimeWindow :=
  { w with window := w.window.map fun _ => [] }

/-- Clearing one bucket: `w.window[offset] = w.window[offset][:0]`. -/
def clearBucket (w : TimeWindow) (offset : Nat) : TimeWindow :=
  { w with window := w.window.set offset [] }

/-- The `distance` local of `resetBuckets`: the raw offset difference,
re-computed after a negative (wrapped-around) result. -/
def ringDistance (w : TimeWindow) (windowOffset : Nat) : Int :=
  let d0 : Int := (windowOffset : Int) - (w.lastWindowOffset : Int)
  if d0 < 0 then ((w.numberOfBuckets : Int) - (w.lastWindowOffset : Int)) + (windowOffset : Int)
  else d0

/-- Model of `resetBuckets`: clear the buckets strictly between the last touched
offset and `windowOffset` in ring order (`counter` runs from 1 while
`< distance`). -/
def resetBuckets (w : TimeWindow) (windowOffset : Nat) : TimeWindow :=
  (List.range (ringDistance w windowOffset - 1).toNat).foldl
    (fun acc c => clearBucket acc ((c + 1 + w.lastWindowOffset) % w.numberOfBuckets)) w

/-- Model of `keepConsistent`: full reset when the gap exceeds the ring size,
strictly-between clearing when the time moved and the gap is below the
ring size. -/
def keepConsistent (w : TimeWindow) (adjustedTime : Int) (windowOffset : Nat) : TimeWindow :=
  let w1 :=
    if (w.numberOfBuckets : Int) < adjustedTime - w.lastWindowTime then resetWindow w else w
  if adjustedTime ≠ w1.lastWindowTime ∧
      adjustedTime - w1.lastWindowTime < (w1.numberOfBuckets : Int) then
    resetBuckets w1 windowOffset
  else w1

/-- The ring offset of `selectBucket`: Go `%` on `int64` truncates toward
zero (`tmod`); for the non-negative times of the claims this is the
ordinary remainder. -/
def selectOffset (w : TimeWindow) (adjustedTime : Int) : Nat :=
  (Int.tmod adjustedTime (w.numberOfBuckets : Int)).toNat

/-- Model of `Append` at bucket-time index `adjustedTime` (the `time.Now()` clock
is an input): repair, append into the current bucket, advance the
last-touch markers. -/
def appendAt (w : TimeWindow) (adjustedTime : Int) (value : ℚ) : TimeWindow :=
  let windowOffset := selectOffset w adjustedTime
  let w1 := keepConsistent w adjustedTime windowOffset
  let w2 :=
    { w1 with window := w1.window.set windowOffset (w1.window.getD windowOffset [] ++ [value]) }
  { w2 with lastWindowTime := adjustedTime, lastWindowOffset := windowOffset }

/-- Model of `Iterate` at bucket-time index `adjustedTime`: repair, then visit
every bucket's samples in storage order.  Returns the repaired state and
the visited samples; the last-touch markers are not written. -/
def iterateAt (w : TimeWindow) (adjustedTime : Int) : TimeWindow × List ℚ :=
  let windowOffset := selectOffset w adjustedTime
  let w1 := keepConsistent w adjustedTime windowOffset
  (w1, w1.window.flatten)

/-- The spec's "maximum observed value" of a window replay. -/
def listMaxQ : List ℚ → Option ℚ
  | [] => none
  | x :: xs => some (xs.foldl max x)

/-- The 100 samples valued 1..100 of the percentile test vectors. -/
def oneToHundred : List ℚ := (List.range 100).map fun i => (i : ℚ) + 1

/-! ### List helper lemmas -/

theorem getD_set_self {α : Type} (d a : α) (l : List α) :
    ∀ {i : Nat}, i < l.length → (l.set i a).getD i d = a := by
  induction l with
  | nil => intro i h; simp at h
  | cons x xs ih =>
    intro i h
    cases i with
    | zero => rfl
    | succ i => exact ih (by simpa using h)

theorem getD_set_ne {α : Type} (d a : α) (l : List α) :
    ∀ {i j : Nat}, i ≠ j → (l.set i a).getD j d = l.getD j d := by
  induction l with
  | nil => intro i j _; rfl
  | cons x xs ih =>
    intro i j hne
    cases i with
    | zero =>
      cases j with
      | zero => exact absurd rfl hne
      | succ j => rfl
    | succ i =>
      cases j with
      | zero => rfl
      | succ j => exact ih fun e => hne (by rw [e])

theorem getD_of_length_le {α : Type} (d : α) (l : List α) :
    ∀ {i : Nat}, l.length ≤ i → l.getD i d = d := by
  induction l with
  | nil => intro i _; rfl
  | cons x xs ih =>
    intro i h
    cases i with
    | zero => simp at h
    | succ i => exact ih (by simp at h; omega)

theorem map_getD_range {α : Type} (d : α) (l : List α) :
    (List.range l.length).map (fun i => l.getD i d) = l := by
  induction l with
  | nil => rfl
  | cons x xs ih =>
    rw [List.length_cons, List.range_succ_eq_map, List.map_cons, List.map_map]
    exact congrArg (x :: ·) ih

theorem flatten_replicate_nil (n : Nat) :
    (List.replicate n ([] : List ℚ)).flatten = [] := by
  induction n with
  | zero => rfl
  | succ n ih => simp [List.replicate_succ, ih]

theorem getD_replicate_nil (n : Nat) (i : Nat) :
    (List.replicate n ([] : List ℚ)).getD i [] = [] := by
  rcases Nat.lt_or_ge i n with h | h
  · induction n generalizing i with
    | zero => simp at h
    | succ n ih =>
      cases i with
      | zero => rfl
      | succ i => exact ih i (by omega)
  · exact getD_of_length_le _ _ (by simpa using h)

/-- Splitting a remainder of a sum of two residues below the modulus. -/
theorem add_mod_cases (r gn N : Nat) (hr : r < N) (hgn : gn < N) :
    (r + gn) % N = if r + gn < N then r + gn else r + gn - N := by
  split
  · exact Nat.mod_eq_of_lt (by omega)
  · rw [Nat.mod_eq_sub_mod (by omega), Nat.mod_eq_of_lt (by omega)]

/-! ### TimeWindow helper lemmas -/

theorem clearBucket_getD_self (w : TimeWindow) (j : Nat) :
    (clearBucket w j).window.getD j [] = [] := by
  rcases Nat.lt_or_ge j w.window.length with h | h
  · exact getD_set_self _ _ _ h
  · unfold clearBucket
    rw [List.set_eq_of_length_le h]
    exact getD_of_length_le _ _ h

theorem clearBucket_getD_ne (w : TimeWindow) {i j : Nat} (h : i ≠ j) :
    (clearBucket w j).window.getD i [] = w.window.getD i [] :=
  getD_set_ne _ _ _ fun e => h (by rw [e])

theorem foldl_clearBucket_getD (L : List Nat) (w : TimeWindow) (i : Nat) :
    (L.foldl clearBucket w).window.getD i [] =
      if i ∈ L then [] else w.window.getD i [] := by
  induction L generalizing w with
  | nil => simp
  | cons j L ih =>
    rw [List.foldl_cons, ih]
    by_cases hL : i ∈ L
    · rw [if_pos hL, if_pos (List.mem_cons_of_mem j hL)]
    · rw [if_neg hL]
      by_cases hij : i = j
      · subst hij
        rw [clearBucket_getD_self, if_pos (List.mem_cons_self i L)]
      · rw [clearBucket_getD_ne w hij, if_neg (by simp [hij, hL])]

theorem foldl_clearBucket_fields (L : List Nat) (w : TimeWindow) :
    (L.foldl clearBucket w).numberOfBuckets = w.numberOfBuckets ∧
    (L.foldl clearBucket w).lastWindowOffset = w.lastWindowOffset ∧
    (L.foldl clearBucket w).lastWindowTime = w.lastWindowTime ∧
    (L.foldl clearBucket w).window.length = w.window.length := by
  induction L generalizing w with
  | nil => exact ⟨rfl, rfl, rfl, rfl⟩
  | cons j L ih =>
    rw [List.foldl_cons]
    obtain ⟨h1, h2, h3, h4⟩ := ih (clearBucket w j)
    exact ⟨h1, h2, h3, by rw [h4]; exact List.length_set ..⟩

theorem resetBuckets_fields (w : TimeWindow) (off : Nat) :
    (resetBuckets w off).numberOfBuckets = w.numberOfBuckets ∧
    (resetBuckets w off).lastWindowOffset = w.lastWindowOffset ∧
    (resetBuckets w off).lastWindowTime = w.lastWindowTime ∧
    (resetBuckets w off).window.length = w.window.length := by
  unfold resetBuckets
  rw [← List.foldl_map (fun c => (c + 1 + w.lastWindowOffset) % w.numberOfBuckets) clearBucket]
  exact foldl_clearBucket_fields _ w

/-- Lemma: `keepConsistent` is one of the four combinations of its two repair
actions. -/
theorem keepConsistent_cases (w : TimeWindow) (t : Int) (off : Nat) :
    keepConsistent w t off = w ∨ keepConsistent w t off = resetWindow w ∨
    keepConsistent w t off = resetBuckets w off ∨
    keepConsistent w t off = resetBuckets (resetWindow w) off := by
  simp only [keepConsistent]
  split <;> split <;>
    first
      | exact Or.inl rfl
      | exact Or.inr (Or.inl rfl)
      | exact Or.inr (Or.inr (Or.inl rfl))
      | exact Or.inr (Or.inr (Or.inr rfl))

theorem resetWindow_fields (w : TimeWindow) :
    (resetWindow w).numberOfBuckets = w.numberOfBuckets ∧
    (resetWindow w).lastWindowOffset = w.lastWindowOffset ∧
    (resetWindow w).lastWindowTime = w.lastWindowTime ∧
    (resetWindow w).window.length = w.window.length :=
  ⟨rfl, rfl, rfl, List.length_map ..⟩

theorem keepConsistent_fields (w : TimeWindow) (t : Int) (off : Nat) :
    (keepConsistent w t off).numberOfBuckets = w.numberOfBuckets ∧
    (keepConsistent w t off).lastWindowOffset = w.lastWindowOffset ∧
    (keepConsistent w t off).lastWindowTime = w.lastWindowTime ∧
    (keepConsistent w t off).window.length = w.window.length := by
  rcases keepConsistent_cases w t off with h | h | h | h <;> rw [h]
  · exact ⟨rfl, rfl, rfl, rfl⟩
  · exact resetWindow_fields w
  · exact resetBuckets_fields w off
  · obtain ⟨h1, h2, h3, h4⟩ := resetBuckets_fields (resetWindow w) off
    obtain ⟨g1, g2, g3, g4⟩ := resetWindow_fields w
    exact ⟨h1.trans g1, h2.trans g2, h3.trans g3, h4.trans g4⟩

theorem selectOffset_eq (w : TimeWindow) (t : Int) (ht : 0 ≤ t) :
    selectOffset w t = t.toNat % w.numberOfBuckets := by
  unfold selectOffset
  rw [Int.tmod_eq_emod ht (by positivity)]
  conv_lhs => rw [← Int.toNat_of_nonneg ht]
  rw [← Int.natCast_mod, Int.toNat_natCast]

/-! ### Bubble sort correctness -/

theorem bubbleSwap_perm (x : ℚ) (l : List ℚ) : List.Perm (bubbleSwap x l) (x :: l) := by
  induction l generalizing x with
  | nil => exact List.Perm.refl _
  | cons y rest ih =>
    unfold bubbleSwap
    split
    · exact ((ih x).cons y).trans (List.Perm.swap x y rest)
    · exact (ih y).cons x

theorem bubblePass_perm (l : List ℚ) : List.Perm (bubblePass l) l := by
  cases l with
  | nil => exact List.Perm.refl _
  | cons x rest => exact bubbleSwap_perm x rest

theorem bubbleSwap_decomp (x : ℚ) (l : List ℚ) :
    ∃ m M, bubbleSwap x l = m ++ [M] ∧ ∀ a ∈ x :: l, a ≤ M := by
  induction l generalizing x with
  | nil => exact ⟨[], x, rfl, by simp⟩
  | cons y rest ih =>
    unfold bubbleSwap
    split
    · rename_i hxy
      obtain ⟨m, M, hm, hub⟩ := ih x
      refine ⟨y :: m, M, by rw [hm]; rfl, ?_⟩
      intro a ha
      rcases List.mem_cons.mp ha with rfl | ha
      · exact hub a (List.mem_cons_self a rest)
      · rcases List.mem_cons.mp ha with rfl | ha
        · exact le_of_lt (lt_of_lt_of_le hxy (hub x (List.mem_cons_self x rest)))
        · exact hub a (List.mem_cons_of_mem x ha)
    · rename_i hxy
      obtain ⟨m, M, hm, hub⟩ := ih y
      refine ⟨x :: m, M, by rw [hm]; rfl, ?_⟩
      intro a ha
      rcases List.mem_cons.mp ha with rfl | ha
      · exact le_trans (le_of_not_lt hxy) (hub y (List.mem_cons_self y rest))
      · exact hub a ha

theorem bubbleSwap_append_ub (M : ℚ) (x : ℚ) (l : List ℚ)
    (hub : ∀ a ∈ x :: l, a ≤ M) :
    bubbleSwap x (l ++ [M]) = bubbleSwap x l ++ [M] := by
  induction l generalizing x with
  | nil =>
    rw [List.nil_append]
    unfold bubbleSwap
    rw [if_neg (not_lt.mpr (hub x (List.mem_cons_self x [])))]
    rfl
  | cons y rest ih =>
    rw [List.cons_append]
    unfold bubbleSwap
    split
    · rw [ih x fun a ha => by
        rcases List.mem_cons.mp ha with rfl | ha
        · exact hub a (List.mem_cons_self a _)
        · exact hub a (List.mem_cons_of_mem x (List.mem_cons_of_mem y ha))]
      rfl
    · rw [ih y fun a ha => hub a (List.mem_cons_of_mem x ha)]
      rfl

theorem bubblePass_append_ub (M : ℚ) (l : List ℚ) (hub : ∀ a ∈ l, a ≤ M) :
    bubblePass (l ++ [M]) = bubblePass l ++ [M] := by
  cases l with
  | nil => rfl
  | cons x rest => exact bubbleSwap_append_ub M x rest hub

theorem bubbleSort_eq_iterate (l : List ℚ) : bubbleSort l = bubblePass^[l.length] l := by
  unfold bubbleSort
  generalize l.length = k
  induction k with
  | zero => rfl
  | succ k ih =>
    rw [List.range_succ, List.foldl_append, ih, List.foldl_cons, List.foldl_nil,
      Function.iterate_succ_apply']

theorem iterate_pass_perm (k : Nat) (l : List ℚ) : List.Perm (bubblePass^[k] l) l := by
  induction k generalizing l with
  | zero => exact List.Perm.refl _
  | succ k ih =>
    rw [Function.iterate_succ_apply]
    exact (ih (bubblePass l)).trans (bubblePass_perm l)

theorem iterate_pass_append_ub (M : ℚ) (k : Nat) :
    ∀ l : List ℚ, (∀ a ∈ l, a ≤ M) →
      bubblePass^[k] (l ++ [M]) = bubblePass^[k] l ++ [M] := by
  induction k with
  | zero => intro l _; rfl
  | succ k ih =>
    intro l hub
    rw [Function.iterate_succ_apply, Function.iterate_succ_apply,
      bubblePass_append_ub M l hub,
      ih (bubblePass l) fun a ha => hub a ((bubblePass_perm l).mem_iff.mp ha)]

theorem iterate_pass_sorted (k : Nat) :
    ∀ l : List ℚ, l.length ≤ k + 1 → List.Sorted (· ≤ ·) (bubblePass^[k] l) := by
  induction k with
  | zero =>
    intro l hl
    match l, hl with
    | [], _ => exact List.sorted_nil
    | [x], _ => exact List.sorted_singleton x
  | succ k ih =>
    intro l hl
    match l with
    | [] =>
      rw [Function.iterate_fixed (show bubblePass [] = [] from rfl)]
      exact List.sorted_nil
    | x :: rest =>
      rw [Function.iterate_succ_apply]
      obtain ⟨m, M, hm, hub⟩ := bubbleSwap_decomp x rest
      have hpass : bubblePass (x :: rest) = m ++ [M] := hm
      have hlm : m.length = rest.length := by
        have hl2 := (bubblePass_perm (x :: rest)).length_eq
        rw [hpass] at hl2
        simp at hl2
        omega
      have hubm : ∀ a ∈ m, a ≤ M := by
        intro a ha
        have ham : a ∈ m ++ [M] := List.mem_append_left _ ha
        rw [← hpass] at ham
        exact hub a ((bubblePass_perm (x :: rest)).mem_iff.mp ham)
      rw [hpass, iterate_pass_append_ub M k m hubm]
      refine List.pairwise_append.mpr ⟨ih m ?_, List.sorted_singleton M, ?_⟩
      · have : (x :: rest).length ≤ k + 2 := hl
        simp at this
        omega
      · intro a ha b hb
        rw [List.mem_singleton] at hb
        subst hb
        exact hubm a ((iterate_pass_perm k m).mem_iff.mp ha)

theorem bubbleSort_sorted (l : List ℚ) : List.Sorted (· ≤ ·) (bubbleSort l) := by
  rw [bubbleSort_eq_iterate]
  exact iterate_pass_sorted l.length l (by omega)

theorem bubbleSort_perm (l : List ℚ) : List.Perm (bubbleSort l) l := by
  rw [bubbleSort_eq_iterate]
  exact iterate_pass_perm l.length l

/-! ### Maximum of a fold, and the last element of the sorted list -/

theorem foldl_max_mem (x : ℚ) (xs : List ℚ) : xs.foldl max x ∈ x :: xs := by
  induction xs generalizing x with
  | nil => exact List.mem_singleton.mpr rfl
  | cons y ys ih =>
    rw [List.foldl_cons]
    rcases List.mem_cons.mp (ih (max x y)) with hm | hm
    · rw [hm]
      rcases max_choice x y with h | h <;> rw [h]
      · exact List.mem_cons_self x _
      · exact List.mem_cons_of_mem x (List.mem_cons_self y ys)
    · exact List.mem_cons_of_mem x (List.mem_cons_of_mem y hm)

theorem le_foldl_max (x : ℚ) (xs : List ℚ) : ∀ a ∈ x :: xs, a ≤ xs.foldl max x := by
  induction xs generalizing x with
  | nil =>
    intro a ha
    rw [List.mem_singleton] at ha
    exact le_of_eq ha
  | cons y ys ih =>
    intro a ha
    rw [List.foldl_cons]
    have hx : x ≤ List.foldl max (max x y) ys :=
      le_trans (le_max_left x y) (ih (max x y) _ (List.mem_cons_self _ _))
    have hy : y ≤ List.foldl max (max x y) ys :=
      le_trans (le_max_right x y) (ih (max x y) _ (List.mem_cons_self _ _))
    rcases List.mem_cons.mp ha with h | h
    · exact (le_of_eq h).trans hx
    · rcases List.mem_cons.mp h with h2 | h2
      · exact (le_of_eq h2).trans hy
      · exact ih (max x y) a (List.mem_cons_of_mem _ h2)

theorem sorted_getLast_ub (l : List ℚ) (h : l ≠ []) (hs : List.Sorted (· ≤ ·) l) :
    ∀ a ∈ l, a ≤ l.getLast h := by
  induction l with
  | nil => exact absurd rfl h
  | cons x rest ih =>
    intro a ha
    cases rest with
    | nil =>
      rw [List.mem_singleton] at ha
      rw [List.getLast_singleton]
      exact le_of_eq ha
    | cons y ys =>
      rw [List.getLast_cons (by simp)]
      rw [List.sorted_cons] at hs
      rcases List.mem_cons.mp ha with h | h
      · exact (le_of_eq h).trans (le_trans (hs.1 y (List.mem_cons_self y ys))
          (ih (by simp) hs.2 y (List.mem_cons_self y ys)))
      · exact ih (by simp) hs.2 a h

theorem bubbleSort_getLast_eq_max (l : List ℚ) (h : l ≠ []) :
    (bubbleSort l).getLast? = listMaxQ l := by
  obtain ⟨x, xs, rfl⟩ := List.exists_cons_of_ne_nil h
  have hperm := bubbleSort_perm (x :: xs)
  have hne : bubbleSort (x :: xs) ≠ [] := by
    intro he
    have hlen := hperm.length_eq
    rw [he] at hlen
    simp at hlen
  rw [List.getLast?_eq_getLast _ hne]
  unfold listMaxQ
  have hmem : (bubbleSort (x :: xs)).getLast hne ∈ x :: xs :=
    hperm.mem_iff.mp (List.getLast_mem hne)
  have hle : (bubbleSort (x :: xs)).getLast hne ≤ xs.foldl max x :=
    le_foldl_max x xs _ hmem
  have hge : xs.foldl max x ≤ (bubbleSort (x :: xs)).getLast hne :=
    sorted_getLast_ub _ hne (bubbleSort_sorted _) _ (hperm.mem_iff.mpr (foldl_max_mem x xs))
  exact congrArg some (le_antisymm hle hge)

/-! ### FastPercentile priming -/

theorem foldl_psStep_priming (p : ℚ) :
    ∀ (samples : List ℚ) (s : PSquareState), s.observations + samples.length ≤ 5 →
      samples.foldl (psStep p) s =
        { s with
          initObs := s.initObs ++ samples
          observations := s.observations + samples.length } := by
  intro samples
  induction samples with
  | nil => intro s _; simp
  | cons v rest ih =>
    intro s hlen
    rw [List.foldl_cons]
    have hstep : psStep p s v =
        { s with observations := s.observations + 1, initObs := s.initObs ++ [v] } := by
      unfold psStep
      rw [if_pos (by simp at hlen; omega)]
    rw [hstep, ih _ (by simp at hlen ⊢; omega)]
    simp [List.append_assoc]
    omega

/-! ### Ring-offset arithmetic -/

theorem selectOffset_add (w : TimeWindow) (t g : Int) (ht : 0 ≤ t) (hg : 0 ≤ g) :
    selectOffset w (t + g) =
      (t.toNat % w.numberOfBuckets + g.toNat % w.numberOfBuckets) % w.numberOfBuckets := by
  rw [selectOffset_eq w _ (by omega)]
  have htg : (t + g).toNat = t.toNat + g.toNat := by omega
  rw [htg, Nat.add_mod]

theorem ringDistance_of_gap (w : TimeWindow) (g : Int) (hN : 0 < w.numberOfBuckets)
    (ht : 0 ≤ w.lastWindowTime)
    (hoff : w.lastWindowOffset = selectOffset w w.lastWindowTime)
    (hg0 : 0 < g) (hgN : g < (w.numberOfBuckets : Int)) :
    ringDistance w (selectOffset w (w.lastWindowTime + g)) = g := by
  have hr : w.lastWindowTime.toNat % w.numberOfBuckets < w.numberOfBuckets :=
    Nat.mod_lt _ hN
  have hgn : g.toNat < w.numberOfBuckets := by omega
  have hsel : selectOffset w (w.lastWindowTime + g) =
      (w.lastWindowTime.toNat % w.numberOfBuckets + g.toNat) % w.numberOfBuckets := by
    rw [selectOffset_add w _ g ht (by omega), Nat.mod_eq_of_lt hgn]
  have hoff2 : w.lastWindowOffset = w.lastWindowTime.toNat % w.numberOfBuckets := by
    rw [hoff, selectOffset_eq w _ ht]
  rw [hsel, add_mod_cases _ _ _ hr hgn]
  simp only [ringDistance, hoff2]
  split <;> split <;> omega

theorem keepConsistent_of_gap_lt (w : TimeWindow) (g : Int) (off : Nat)
    (hg0 : 0 < g) (hgN : g < (w.numberOfBuckets : Int)) :
    keepConsistent w (w.lastWindowTime + g) off = resetBuckets w off := by
  simp only [keepConsistent]
  rw [if_neg (show ¬ ((w.numberOfBuckets : Int) <
    w.lastWindowTime + g - w.lastWindowTime) by omega)]
  rw [if_pos (show w.lastWindowTime + g ≠ w.lastWindowTime ∧
    w.lastWindowTime + g - w.lastWindowTime < (w.numberOfBuckets : Int) from
      ⟨by omega, by omega⟩)]

theorem keepConsistent_of_gap_eq (w : TimeWindow) (off : Nat) :
    keepConsistent w (w.lastWindowTime + (w.numberOfBuckets : Int)) off = w := by
  simp only [keepConsistent]
  rw [if_neg (show ¬ ((w.numberOfBuckets : Int) <
    w.lastWindowTime + (w.numberOfBuckets : Int) - w.lastWindowTime) by omega)]
  rw [if_neg (show ¬ (w.lastWindowTime + (w.numberOfBuckets : Int) ≠ w.lastWindowTime ∧
    w.lastWindowTime + (w.numberOfBuckets : Int) - w.lastWindowTime <
      (w.numberOfBuckets : Int)) by push_neg; intro _; omega)]

theorem keepConsistent_of_gap_gt (w : TimeWindow) (t : Int) (off : Nat)
    (hgap : (w.numberOfBuckets : Int) < t - w.lastWindowTime) :
    keepConsistent w t off = resetWindow w := by
  simp only [keepConsistent]
  rw [if_pos (show (w.numberOfBuckets : Int) < t - w.lastWindowTime from hgap)]
  rw [if_neg (show ¬ (t ≠ (resetWindow w).lastWindowTime ∧
    t - (resetWindow w).lastWindowTime < ((resetWindow w).numberOfBuckets : Int)) by
      simp only [resetWindow]
      push_neg
      intro _
      omega)]

theorem resetBuckets_of_distance_le_one (w : TimeWindow) (off : Nat)
    (hd : ringDistance w off ≤ 1) :
    resetBuckets w off = w := by
  unfold resetBuckets
  have h0 : (ringDistance w off - 1).toNat = 0 := by omega
  rw [h0]
  rfl

theorem resetBuckets_getD (w : TimeWindow) (off : Nat) (i : Nat) :
    (resetBuckets w off).window.getD i [] =
      if i ∈ (List.range (ringDistance w off - 1).toNat).map
          (fun c => (c + 1 + w.lastWindowOffset) % w.numberOfBuckets) then []
      else w.window.getD i [] := by
  unfold resetBuckets
  rw [← List.foldl_map (fun c => (c + 1 + w.lastWindowOffset) % w.numberOfBuckets) clearBucket]
  exact foldl_clearBucket_getD _ w i

theorem cleared_list_eq (lastOff N : Nat) (g : Int) (hg0 : 0 < g) :
    (List.range (g - 1).toNat).map (fun c => (c + 1 + lastOff) % N) =
      (List.range' 1 (g.toNat - 1)).map (fun j => (lastOff + j) % N) := by
  rw [List.range'_eq_map_range, List.map_map]
  have hg1 : (g - 1).toNat = g.toNat - 1 := by omega
  rw [hg1]
  refine List.map_congr_left fun c _ => ?_
  simp only [Function.comp]
  congr 1
  omega

/-! ### Claims C1-C3, C7: the time-bucketed window -/

/-- C1 counterexample.  A ring of `NewTimeWindow 2` (three physical
buckets) with all three buckets pre-populated and consistent last-touch
markers (`lastWindowTime = 0`, `lastWindowOffset = 0`) is touched by
`Append` at bucket-time index 1, exactly one bucket duration later.  The
claim demands that exactly one of the three buckets be retired; in fact
the result is `[[1], [2, 9], [3]]`: `resetBuckets` clears only offsets
strictly between the two (none, at distance 1), so no bucket is retired
and every bucket keeps its contents. -/
theorem C1_counterexample :
    (appendAt { NewTimeWindow 2 with window := [[1], [2], [3]] } 1 9).window =
      [[1], [2, 9], [3]] ∧
    (appendAt { NewTimeWindow 2 with window := [[1], [2], [3]] } 1 9).window.getD 0 [] ≠ [] ∧
    (appendAt { NewTimeWindow 2 with window := [[1], [2], [3]] } 1 9).window.getD 1 [] ≠ [] ∧
    (appendAt { NewTimeWindow 2 with window := [[1], [2], [3]] } 1 9).window.getD 2 [] ≠ [] := by
  with_unfolding_all decide

/-- C1 amended.  For a time-bucketed window in a consistent state, a
touch (`Append` or `Iterate`) that advances time by exactly one bucket
duration retires *no* bucket: `Append` only appends the new sample to the
entered bucket and advances the markers, every other bucket (hence every
pre-populated bucket's contents) is unchanged, and `Iterate` leaves the
whole window unchanged and visits every stored sample. -/
theorem C1_amended (w : TimeWindow) (v : ℚ)
    (hN : 2 ≤ w.numberOfBuckets) (ht : 0 ≤ w.lastWindowTime)
    (hoff : w.lastWindowOffset = selectOffset w w.lastWindowTime) :
    appendAt w (w.lastWindowTime + 1) v =
      { w with
        window := w.window.set (selectOffset w (w.lastWindowTime + 1))
          (w.window.getD (selectOffset w (w.lastWindowTime + 1)) [] ++ [v])
        lastWindowTime := w.lastWindowTime + 1
        lastWindowOffset := selectOffset w (w.lastWindowTime + 1) } ∧
    (iterateAt w (w.lastWindowTime + 1)).1 = w ∧
    (iterateAt w (w.lastWindowTime + 1)).2 = w.window.flatten := by
  have hkc : keepConsistent w (w.lastWindowTime + 1)
      (selectOffset w (w.lastWindowTime + 1)) = w := by
    rw [keepConsistent_of_gap_lt w 1 _ one_pos (by omega)]
    exact resetBuckets_of_distance_le_one _ _
      (le_of_eq (ringDistance_of_gap w 1 (by omega) ht hoff one_pos (by omega)))
  refine ⟨?_, ?_, ?_⟩
  · simp only [appendAt, hkc]
  · simp only [iterateAt, hkc]
  · simp only [iterateAt, hkc]

/-- C1 witness for the amended theorem at the counterexample's
window. -/
theorem C1_amended_witness :
    2 ≤ ({ NewTimeWindow 2 with window := [[1], [2], [3]] } : TimeWindow).numberOfBuckets ∧
    (appendAt { NewTimeWindow 2 with window := [[1], [2], [3]] }
        (({ NewTimeWindow 2 with window := [[1], [2], [3]] } : TimeWindow).lastWindowTime + 1) 9 =
      { ({ NewTimeWindow 2 with window := [[1], [2], [3]] } : TimeWindow) with
        window := ({ NewTimeWindow 2 with window := [[1], [2], [3]] } : TimeWindow).window.set
          (selectOffset { NewTimeWindow 2 with window := [[1], [2], [3]] }
            (({ NewTimeWindow 2 with window := [[1], [2], [3]] } : TimeWindow).lastWindowTime + 1))
          (({ NewTimeWindow 2 with window := [[1], [2], [3]] } : TimeWindow).window.getD
            (selectOffset { NewTimeWindow 2 with window := [[1], [2], [3]] }
              (({ NewTimeWindow 2 with window := [[1], [2], [3]] } : TimeWindow).lastWindowTime + 1)) [] ++ [9])
        lastWindowTime :=
          ({ NewTimeWindow 2 with window := [[1], [2], [3]] } : TimeWindow).lastWindowTime + 1
        lastWindowOffset :=
          selectOffset { NewTimeWindow 2 with window := [[1], [2], [3]] }
            (({ NewTimeWindow 2 with window := [[1], [2], [3]] } : TimeWindow).lastWindowTime + 1) }) := by
  refine ⟨by with_unfolding_all decide, ?_⟩
  exact (C1_amended { NewTimeWindow 2 with window := [[1], [2], [3]] } 9
    (by with_unfolding_all decide) (by with_unfolding_all decide)
    (by with_unfolding_all decide)).1

/-- C2 counterexample.  With two physical buckets
(`NewTimeWindow 1`), last touch at bucket-index 0, a touch at index 2 has
a nonzero elapsed gap equal to `numberOfBuckets`; `keepConsistent` runs
*neither* repair branch (the full reset requires `gap > numberOfBuckets`,
the partial reset requires `gap < numberOfBuckets`), so the stale bucket
contents `[1]` and `[2]` survive untouched. -/
theorem C2_counterexample :
    (2 : Int) - ({ NewTimeWindow 1 with window := [[1], [2]] } : TimeWindow).lastWindowTime ≠ 0 ∧
    keepConsistent { NewTimeWindow 1 with window := [[1], [2]] } 2
        (selectOffset { NewTimeWindow 1 with window := [[1], [2]] } 2) =
      { NewTimeWindow 1 with window := [[1], [2]] } ∧
    ({ NewTimeWindow 1 with window := [[1], [2]] } : TimeWindow).window.getD 0 [] = [1] := by
  with_unfolding_all decide

/-- C2 amended.  After every `Append` and `Iterate` on a
time-bucketed window whose current bucket index differs from
`lastWindowTime` by `g > 0`, the `keepConsistent` repair behaves as
follows: when `g > numberOfBuckets` every bucket is cleared
(`resetWindow`); when `0 < g < numberOfBuckets` exactly the buckets at
ring offsets strictly between the last touched offset and the current
offset (`lastWindowOffset + j` mod ring size for `1 ≤ j ≤ g - 1`) are
cleared and all others are untouched; but when `g = numberOfBuckets`
exactly, *neither* branch runs and no repair happens — the claim's
"for every nonzero gap one of the two repair branches runs" fails only
there. -/
theorem C2_amended (w : TimeWindow) (g : Int)
    (hN : 0 < w.numberOfBuckets) (ht : 0 ≤ w.lastWindowTime)
    (hoff : w.lastWindowOffset = selectOffset w w.lastWindowTime)
    (hg : 0 < g) :
    (((w.numberOfBuckets : Int) < g) →
      keepConsistent w (w.lastWindowTime + g)
        (selectOffset w (w.lastWindowTime + g)) = resetWindow w) ∧
    ((g = (w.numberOfBuckets : Int)) →
      keepConsistent w (w.lastWindowTime + g)
        (selectOffset w (w.lastWindowTime + g)) = w) ∧
    ((g < (w.numberOfBuckets : Int)) → ∀ i : Nat,
      (keepConsistent w (w.lastWindowTime + g)
          (selectOffset w (w.lastWindowTime + g))).window.getD i [] =
        if i ∈ (List.range' 1 (g.toNat - 1)).map
            (fun j => (w.lastWindowOffset + j) % w.numberOfBuckets) then []
        else w.window.getD i []) := by
  refine ⟨?_, ?_, ?_⟩
  · intro hgap
    exact keepConsistent_of_gap_gt w _ _ (by omega)
  · intro hgap
    rw [hgap]
    exact keepConsistent_of_gap_eq w _
  · intro hgap i
    rw [keepConsistent_of_gap_lt w g _ hg hgap, resetBuckets_getD,
      ringDistance_of_gap w g hN ht hoff hg hgap,
      cleared_list_eq w.lastWindowOffset w.numberOfBuckets g hg]

/-- C2 witness for the amended theorem: three buckets
(`NewTimeWindow 2`), gap 2: the single strictly-between bucket (offset 1)
is cleared, offsets 0 and 2 keep their contents. -/
theorem C2_amended_witness :
    (0 : Int) < 2 ∧
    ((2 : Int) < (({ NewTimeWindow 2 with window := [[1], [2], [3]] } : TimeWindow).numberOfBuckets : Int) → ∀ i : Nat,
      (keepConsistent { NewTimeWindow 2 with window := [[1], [2], [3]] }
          (({ NewTimeWindow 2 with window := [[1], [2], [3]] } : TimeWindow).lastWindowTime + 2)
          (selectOffset { NewTimeWindow 2 with window := [[1], [2], [3]] }
            (({ NewTimeWindow 2 with window := [[1], [2], [3]] } : TimeWindow).lastWindowTime + 2))).window.getD i [] =
        if i ∈ (List.range' 1 ((2 : Int).toNat - 1)).map
            (fun j => (({ NewTimeWindow 2 with window := [[1], [2], [3]] } : TimeWindow).lastWindowOffset + j) %
              ({ NewTimeWindow 2 with window := [[1], [2], [3]] } : TimeWindow).numberOfBuckets) then []
        else ({ NewTimeWindow 2 with window := [[1], [2], [3]] } : TimeWindow).window.getD i []) := by
  refine ⟨by norm_num, ?_⟩
  exact (C2_amended { NewTimeWindow 2 with window := [[1], [2], [3]] } 2
    (by with_unfolding_all decide) (by with_unfolding_all decide)
    (by with_unfolding_all decide) (by norm_num)).2.2

/-- C3 counterexample.  Here `NewTimeWindow 1` has a configured bucket
count of 1 (and one sentinel bucket, two physical buckets).  A touch at
bucket-index 2 after a last touch at index 0 arrives after 2 bucket
durations of inactivity — strictly more than the configured count — yet
nothing is cleared: the appended window still holds the stale sample `1`
next to the new sample, and `Iterate` still visits the stale samples
`1, 2`. -/
theorem C3_counterexample :
    (appendAt { NewTimeWindow 1 with window := [[1], [2]] } 2 9).window = [[1, 9], [2]] ∧
    (iterateAt { NewTimeWindow 1 with window := [[1], [2]] } 2).2 = [1, 2] := by
  with_unfolding_all decide

/-- C3 amended.  A touch after more than `numberOfBuckets` (the
configured bucket count *plus one*, because of the sentinel bucket)
bucket durations of inactivity leaves every bucket empty before the new
sample is appended or any sample is visited: the repaired window is all
empty buckets, `Append` produces the all-empty window with only the new
sample in the current bucket, and `Iterate` visits nothing. -/
theorem C3_amended (w : TimeWindow) (t : Int) (v : ℚ)
    (hlen : w.window.length = w.numberOfBuckets)
    (hgap : (w.numberOfBuckets : Int) < t - w.lastWindowTime) :
    (keepConsistent w t (selectOffset w t)).window =
      List.replicate w.numberOfBuckets [] ∧
    appendAt w t v =
      { w with
        window := (List.replicate w.numberOfBuckets []).set (selectOffset w t) [v]
        lastWindowTime := t
        lastWindowOffset := selectOffset w t } ∧
    (iterateAt w t).2 = [] := by
  have hkc := keepConsistent_of_gap_gt w t (selectOffset w t) hgap
  have hwin : (resetWindow w).window = List.replicate w.numberOfBuckets [] := by
    simp only [resetWindow]
    rw [show (fun _ : List ℚ => ([] : List ℚ)) =
      Function.const (List ℚ) ([] : List ℚ) from rfl, List.map_const, hlen]
  refine ⟨by rw [hkc]; exact hwin, ?_, ?_⟩
  · simp only [appendAt, hkc, hwin, getD_replicate_nil, List.nil_append]
    rfl
  · simp only [iterateAt, hkc, hwin, flatten_replicate_nil]

/-- C3 witness for the amended theorem: gap 4 > 2 physical buckets
clears everything before the append / the iteration. -/
theorem C3_amended_witness :
    ({ NewTimeWindow 1 with window := [[1], [2]] } : TimeWindow).window.length =
      ({ NewTimeWindow 1 with window := [[1], [2]] } : TimeWindow).numberOfBuckets ∧
    (keepConsistent { NewTimeWindow 1 with window := [[1], [2]] } 4
        (selectOffset { NewTimeWindow 1 with window := [[1], [2]] } 4)).window =
      List.replicate ({ NewTimeWindow 1 with window := [[1], [2]] } : TimeWindow).numberOfBuckets [] ∧
    (iterateAt { NewTimeWindow 1 with window := [[1], [2]] } 4).2 = [] := by
  refine ⟨by with_unfolding_all decide, ?_, ?_⟩
  · exact (C3_amended { NewTimeWindow 1 with window := [[1], [2]] } 4 0
      (by with_unfolding_all decide) (by with_unfolding_all decide)).1
  · exact (C3_amended { NewTimeWindow 1 with window := [[1], [2]] } 4 0
      (by with_unfolding_all decide) (by with_unfolding_all decide)).2.2

/-- C7 counterexample.  Operation `Iterate` does not advance the last-touch
markers: after `Iterate` at bucket-index 1 the window's `lastWindowTime`
is still 0, while `Append` at the same index sets it to 1 — the two
operations do not advance the markers identically. -/
theorem C7_counterexample :
    (iterateAt { NewTimeWindow 1 with window := [[1], [2]] } 1).1.lastWindowTime = 0 ∧
    (appendAt { NewTimeWindow 1 with window := [[1], [2]] } 1 7).lastWindowTime = 1 ∧
    (0 : Int) ≠ 1 := by
  with_unfolding_all decide

/-- C7 amended.  Operation `Append` advances `lastWindowTime` to the current
bucket index and `lastWindowOffset` to the current ring offset, and
beyond the repaired buckets and the one appended bucket changes nothing
(`numberOfBuckets` is preserved); `Iterate` performs exactly the same
repair but leaves the whole state — in particular both last-touch
markers — as the repair left it, and the repair itself never writes the
markers.  So the markers after `Iterate` equal the markers before the
touch, not the current index/offset. -/
theorem C7_amended (w : TimeWindow) (t : Int) (v : ℚ) :
    (appendAt w t v).lastWindowTime = t ∧
    (appendAt w t v).lastWindowOffset = selectOffset w t ∧
    (appendAt w t v).numberOfBuckets = w.numberOfBuckets ∧
    (appendAt w t v).window =
      (keepConsistent w t (selectOffset w t)).window.set (selectOffset w t)
        ((keepConsistent w t (selectOffset w t)).window.getD (selectOffset w t) [] ++ [v]) ∧
    iterateAt w t =
      (keepConsistent w t (selectOffset w t),
        (keepConsistent w t (selectOffset w t)).window.flatten) ∧
    (keepConsistent w t (selectOffset w t)).lastWindowTime = w.lastWindowTime ∧
    (keepConsistent w t (selectOffset w t)).lastWindowOffset = w.lastWindowOffset ∧
    (keepConsistent w t (selectOffset w t)).numberOfBuckets = w.numberOfBuckets := by
  obtain ⟨h1, h2, h3, _⟩ := keepConsistent_fields w t (selectOffset w t)
  exact ⟨rfl, rfl, h1, rfl, rfl, h3, h2, h1⟩

/-! ### Claims C4-C6, C8-C10: reducers and percentile engines -/

/-- C4 counterexample.  On an empty window the `Avg` reducer divides
the sum 0 by the count 0: the result is the IEEE NaN (`none` in this
embedding), not the 0.0 the claim demands. -/
theorem C4_counterexample :
    Avg [] ≠ some 0 ∧ Avg [] = none := by
  with_unfolding_all decide

/-- C4 amended.  On an empty window, the aggregate.go exact
percentile reducer (`percentileAggregator.Aggregate`) returns exactly
0.0 for every percentile; but the reduce.go `Avg` reducer produces NaN
(0/0, `none` here), and the reduce.go `Percentile` reducer reads the
sorted buffer at index -1 and fails (`none` here) instead of returning
0.0. -/
theorem C4_amended (p : ℚ) :
    percentileAggregate p [] = some 0 ∧ Avg [] = none ∧ Percentile p [] = none := by
  refine ⟨rfl, by with_unfolding_all decide, ?_⟩
  have hsort : sortFloat64s ([] : List ℚ) = [] := rfl
  simp only [Percentile, hsort, List.length_nil, Nat.cast_zero, zero_mul, zero_add]
  with_unfolding_all decide

set_option maxRecDepth 1000000 in
/-- C5.  For the aggregate.go exact percentile reducer over a window
holding exactly the 100 samples valued 1..100 (fed descending, so the
sort is exercised), the 20th percentile is 20.0, the 50th is 50.0, the
99th is 99.0, and the 99.9th is 99.9 = 0.1·99 + 0.9·100. -/
theorem C5_percentile_values :
    percentileAggregate 20 oneToHundred = some 20 ∧
    percentileAggregate 50 oneToHundred = some 50 ∧
    percentileAggregate 99 oneToHundred = some 99 ∧
    percentileAggregate (999/10) oneToHundred = some (999/10) := by
  with_unfolding_all decide

/-- C6 counterexample.  The streaming percentile computation over
*zero* samples does not degrade to a maximum: the degenerate branch
indexes the empty priming buffer at `len-1 = -1` and panics (`none` in
this embedding), contradicting "including zero samples ... in neither
case does the computation fail". -/
theorem C6_counterexample :
    FastPercentile 50 [] = none := by
  with_unfolding_all decide

/-- C6 amended.  The exact percentile computation over a window with
exactly one sample returns that sample, and the streaming (P²)
computation over one to four samples returns the maximum observed value
without interpolating; over zero samples the streaming computation fails
(the claim's zero-sample case is the only part that does not hold). -/
theorem C6_amended (p v : ℚ) (samples : List ℚ) (hne : samples ≠ [])
    (hlen : samples.length < 5) :
    percentileAggregate p [v] = some v ∧
    FastPercentile p samples = listMaxQ samples := by
  constructor
  · rfl
  · simp only [FastPercentile]
    rw [foldl_psStep_priming (p / 100) samples psInit (by simp [psInit]; omega)]
    rw [if_pos (show ({ psInit with
        initObs := psInit.initObs ++ samples
        observations := psInit.observations + samples.length } : PSquareState).observations < 5
      from by simp [psInit]; omega)]
    show (bubbleSort ([] ++ samples)).getLast? = listMaxQ samples
    rw [List.nil_append]
    exact bubbleSort_getLast_eq_max samples hne

/-- C6 witness for the amended theorem: one sample for the exact
reducer, three samples for the streaming estimator (maximum 9). -/
theorem C6_amended_witness :
    ([2, 9, 4] : List ℚ) ≠ [] ∧ ([2, 9, 4] : List ℚ).length < 5 ∧
    (percentileAggregate 50 [7] = some 7 ∧
      FastPercentile 50 [2, 9, 4] = listMaxQ [2, 9, 4]) := by
  exact ⟨by with_unfolding_all decide, by with_unfolding_all decide,
    C6_amended 50 7 [2, 9, 4] (by with_unfolding_all decide) (by with_unfolding_all decide)⟩

/-- A primed `FastPercentile` state: five observations recorded, markers
still zero — the state in which the sixth observation triggers marker
initialization. -/
def psPrimedExample : PSquareState :=
  ⟨[3, 1, 2, 5, 4], [0, 0, 0, 0, 0], [0, 0, 0, 0, 0], [0, 0, 0, 0, 0], [0, 0, 0, 0, 0], 5⟩

/-- C8.  When `FastPercentile` with target fraction `p` processes its
6th observation `v` from a primed state (five recorded observations), it
first initializes the markers and only then runs the steady-state update
on `v`; the initialization sorts the five primed values ascending into
`q[0..4]` (`bubbleSort`, proved sorted and a permutation of the primed
values), and sets `n = [0,1,2,3,4]`, `n' = [0, 2p, 4p, 2+2p, 4]`, and
`dn' = [0, p/2, p, (1+p)/2, 1]`. -/
theorem C8_initialization (p : ℚ) (s : PSquareState) (v : ℚ)
    (hobs : s.observations = 5) (hlen : s.initObs.length = 5) :
    psStep p s v = updateMarkers p (initMarkers p { s with observations := 6 }) v ∧
    (initMarkers p { s with observations := 6 }).q = bubbleSort s.initObs ∧
    List.Sorted (· ≤ ·) (bubbleSort s.initObs) ∧
    List.Perm (bubbleSort s.initObs) s.initObs ∧
    (initMarkers p { s with observations := 6 }).n = [0, 1, 2, 3, 4] ∧
    (initMarkers p { s with observations := 6 }).nPrime = [0, 2 * p, 4 * p, 2 + 2 * p, 4] ∧
    (initMarkers p { s with observations := 6 }).dnPrime = [0, p / 2, p, (1 + p) / 2, 1] := by
  have hsl : (bubbleSort s.initObs).length = 5 := by
    rw [(bubbleSort_perm s.initObs).length_eq, hlen]
  refine ⟨?_, ?_, bubbleSort_sorted _, bubbleSort_perm _, rfl, rfl, rfl⟩
  · unfold psStep
    rw [hobs]
    norm_num
  · show (List.range 5).map (fun o => (bubbleSort s.initObs).getD o 0) = bubbleSort s.initObs
    rw [← hsl]
    exact map_getD_range 0 _

/-- C8 witness: the primed example state with `p = 1/2`, sixth
observation 6. -/
theorem C8_initialization_witness :
    psPrimedExample.observations = 5 ∧ psPrimedExample.initObs.length = 5 ∧
    (psStep (1/2) psPrimedExample 6 =
        updateMarkers (1/2) (initMarkers (1/2) { psPrimedExample with observations := 6 }) 6 ∧
      (initMarkers (1/2) { psPrimedExample with observations := 6 }).q =
        bubbleSort psPrimedExample.initObs ∧
      List.Sorted (· ≤ ·) (bubbleSort psPrimedExample.initObs) ∧
      List.Perm (bubbleSort psPrimedExample.initObs) psPrimedExample.initObs ∧
      (initMarkers (1/2) { psPrimedExample with observations := 6 }).n = [0, 1, 2, 3, 4] ∧
      (initMarkers (1/2) { psPrimedExample with observations := 6 }).nPrime =
        [0, 2 * (1/2), 4 * (1/2), 2 + 2 * (1/2), 4] ∧
      (initMarkers (1/2) { psPrimedExample with observations := 6 }).dnPrime =
        [0, (1/2) / 2, 1/2, (1 + 1/2) / 2, 1]) :=
  ⟨rfl, rfl, C8_initialization (1/2) psPrimedExample 6 rfl rfl⟩

/-- C9.  For every percentile `p ≥ 0` and at least two samples with
fractional rank `n = (p/100)·count - 1 < 0` — in particular `p = 0` with
any count, or `p = 20` with count 2 — the aggregate.go exact percentile
computation floors the rank to `k = -1` and reads the sorted buffer at a
negative index: the access is out of bounds and the operation yields no
result (`none` in this embedding), despite `p` lying in the documented
`[0, 100]` domain. -/
theorem C9_negative_rank (p : ℚ) (samples : List ℚ) (hp : 0 ≤ p)
    (hlen : 2 ≤ samples.length)
    (hneg : (p / 100) * (samples.length : ℚ) - 1 < 0) :
    Int.floor ((p / 100) * (samples.length : ℚ) - 1) = -1 ∧
    percentileAggregate p samples = none := by
  have h0 : (0 : ℚ) ≤ (p / 100) * (samples.length : ℚ) :=
    mul_nonneg (by positivity) (by positivity)
  have hfloor : Int.floor ((p / 100) * (samples.length : ℚ) - 1) = -1 := by
    rw [Int.floor_eq_iff]
    constructor
    · push_cast
      linarith
    · push_cast
      linarith
  refine ⟨hfloor, ?_⟩
  simp only [percentileAggregate]
  rw [if_neg (by omega), if_neg (by omega)]
  have hlen2 : (sortFloat64s samples).length = samples.length :=
    List.length_insertionSort _ _
  rw [hlen2, hfloor]
  have hget : getF (sortFloat64s samples) (-1) = none := by
    unfold getF
    rw [if_neg (by norm_num)]
  rw [hget]
  rfl

/-- C9 witness: percentile 20 with the two samples `[1, 2]`. -/
theorem C9_negative_rank_witness :
    (0 : ℚ) ≤ 20 ∧ 2 ≤ ([1, 2] : List ℚ).length ∧
    ((20 : ℚ) / 100) * (([1, 2] : List ℚ).length : ℚ) - 1 < 0 ∧
    (Int.floor (((20 : ℚ) / 100) * (([1, 2] : List ℚ).length : ℚ) - 1) = -1 ∧
      percentileAggregate 20 [1, 2] = none) := by
  refine ⟨by norm_num, by norm_num, by norm_num, ?_⟩
  exact C9_negative_rank 20 [1, 2] (by norm_num) (by norm_num) (by norm_num)

/-- C10.  For every input sequence of exactly five samples,
`FastPercentile` returns 0.0 regardless of the sample values and of the
target percentile: all five observations only prime the buffer, marker
initialization would only run on a sixth observation, the fewer-than-5
degenerate branch is not taken at exactly five, and the never-written
marker `q[2]` (zero) is returned. -/
theorem C10_five_samples (p : ℚ) (samples : List ℚ) (hlen : samples.length = 5) :
    FastPercentile p samples = some 0 := by
  simp only [FastPercentile]
  rw [foldl_psStep_priming (p / 100) samples psInit (by simp [psInit, hlen])]
  rw [if_neg (show ¬ ({ psInit with
      initObs := psInit.initObs ++ samples
      observations := psInit.observations + samples.length } : PSquareState).observations < 5
    from by simp [psInit, hlen])]
  rfl

/-- C10 witness: five ascending samples whose maximum is 50, yet the
estimator returns 0. -/
theorem C10_five_samples_witness :
    ([10, 20, 30, 40, 50] : List ℚ).length = 5 ∧
    FastPercentile 99 [10, 20, 30, 40, 50] = some 0 :=
  ⟨rfl, C10_five_samples 99 [10, 20, 30, 40, 50] rfl⟩

end Rolling
